import Mathlib

/-
Verification development for the dictation_v0.0.3 voice-transcription studio.

The TypeScript sources are shallowly embedded below:
  - JavaScript numbers are modelled as rationals (ℚ) where fractional values
    occur and as Nat/Int where the code only ever holds integers;
  - possibly-absent object fields are modelled as Option;
  - code that can throw is modelled in Except;
  - Array.prototype.sort with a consistent comparator is modelled by a stable
    insertion sort (stability plus sortedness determines the output of the
    ECMAScript stable sort uniquely for a total preorder comparator).
-/

/-! ## Shared utilities -/

/-- Models JavaScript `string.includes(pat)`: `pat` occurs as a contiguous
substring of the second list. -/
def hasSubstring (pat : List Char) : List Char → Bool
  | [] => pat.isEmpty
  | c :: t => pat.isPrefixOf (c :: t) || hasSubstring pat t

/-- Stable insertion used by `jsSortBy`: an element is placed before the first
already-sorted element it compares `le` to, so earlier elements stay before
later elements that compare equal. -/
def insertStable {α : Type} (le : α → α → Bool) (x : α) : List α → List α
  | [] => [x]
  | y :: t => if le x y then x :: y :: t else y :: insertStable le x t

/-- Models `Array.prototype.sort(comparator)` (ES2019+: stable) for a
consistent comparator whose "not after" relation is `le`. -/
def jsSortBy {α : Type} (le : α → α → Bool) : List α → List α
  | [] => []
  | x :: t => insertStable le x (jsSortBy le t)

/-- Characters matched by the JavaScript regex class `\s`. -/
def isJsSpace (c : Char) : Bool :=
  c == ' ' || c == '\t' || c == '\n' || c == '\r' ||
  c == Char.ofNat 11 || c == Char.ofNat 12 ||
  c == Char.ofNat 0xa0 || c == Char.ofNat 0x1680 ||
  (decide (0x2000 ≤ c.toNat) && decide (c.toNat ≤ 0x200a)) ||
  c == Char.ofNat 0x2028 || c == Char.ofNat 0x2029 ||
  c == Char.ofNat 0x202f || c == Char.ofNat 0x205f ||
  c == Char.ofNat 0x3000 || c == Char.ofNat 0xfeff

/-- Worker for `splitWs`; the flag records whether the scan is inside a
whitespace run (so a run of several spaces yields a single split point). -/
def splitWsAux : Bool → List Char → List Char → List (List Char)
  | _, cur, [] => [cur.reverse]
  | inWs, cur, c :: r =>
    if isJsSpace c then
      if inWs then splitWsAux true cur r
      else cur.reverse :: splitWsAux true [] r
    else splitWsAux false (c :: cur) r

/-- Models JavaScript `str.split(/\s+/)`: fields are the maximal
non-whitespace runs; leading or trailing whitespace contributes an empty
field, and `"".split` gives `[""]`. -/
def splitWs (l : List Char) : List (List Char) :=
  splitWsAux false [] l

/-- ASCII uppercase letter (the regex class `[A-Z]`). -/
def isAsciiUpper (c : Char) : Bool :=
  decide ('A' ≤ c) && decide (c ≤ 'Z')

/-- ASCII lowercase letter (the regex class `[a-z]`). -/
def isAsciiLower (c : Char) : Bool :=
  decide ('a' ≤ c) && decide (c ≤ 'z')

/-- The regex word-character class `\w = [A-Za-z0-9_]`, used by `\b`. -/
def isWordChar (c : Char) : Bool :=
  isAsciiUpper c || isAsciiLower c || (decide ('0' ≤ c) && decide (c ≤ '9')) || c == '_'

/-- Code-unit lexicographic "less or equal" on character lists; this is the
order the default JavaScript `Array.prototype.sort()` comparator induces on
the `toString` images of the elements. -/
def charListLe : List Char → List Char → Bool
  | [], _ => true
  | _ :: _, [] => false
  | a :: as, b :: bs =>
    if a.toNat < b.toNat then true
    else if b.toNat < a.toNat then false
    else charListLe as bs

/-- Default-comparator order of two natural numbers under JavaScript
`Array.prototype.sort()`: their decimal string representations compared
lexicographically by code unit. -/
def natStrLe (a b : Nat) : Bool :=
  charListLe (Nat.repr a).toList (Nat.repr b).toList

/-! ## transcription-service.ts -/

/-- One element of `TranscriptionResult.segments` (`{id, start, end, text}`);
`end` is a reserved word in Lean, so the field is called `endTime`. -/
structure TxSegment where
  id : Int
  start : ℚ
  endTime : ℚ
  text : String
deriving DecidableEq

/-- The `TranscriptionResult` interface of transcription-service.ts; the
optional `segments`/`language` keys are modelled with Option. -/
structure TranscriptionResult where
  text : String
  segments : Option (List TxSegment)
  language : Option String
deriving DecidableEq

/-- Comparator `(a, b) => a.start - b.start` of the final segment sort. -/
def segStartLe (a b : TxSegment) : Bool :=
  decide (a.start ≤ b.start)

/-- Shift one segment's start and end times by an offset (the object spread
`{...segment, start: segment.start + lastEndTime, end: segment.end + lastEndTime}`). -/
def shiftSegment (off : ℚ) (s : TxSegment) : TxSegment :=
  { s with start := s.start + off, endTime := s.endTime + off }

/-- One step of the `results.forEach((result, index) => ...)` loop of
`combineTranscriptionResults`: the accumulator carries
(`allSegments`, `lastEndTime`, `index`). -/
def combineStep (acc : List TxSegment × ℚ × Nat) (r : TranscriptionResult) :
    List TxSegment × ℚ × Nat :=
  match r.segments with
  | some segs =>
    let adjusted := if acc.2.2 = 0 then segs else segs.map (shiftSegment acc.2.1)
    let newLast :=
      match segs.getLast? with
      | some lastSeg => acc.2.1 + lastSeg.endTime
      | none => acc.2.1
    (acc.1 ++ adjusted, newLast, acc.2.2 + 1)
  | none => (acc.1, acc.2.1, acc.2.2 + 1)

/-- `combineTranscriptionResults` from transcription-service.ts. -/
def combineTranscriptionResults (results : List TranscriptionResult) :
    TranscriptionResult :=
  match results with
  | [] => { text := "", segments := none, language := none }
  | [r] => r
  | r1 :: r2 :: rest =>
    let text := String.intercalate " " ((r1 :: r2 :: rest).map (fun r => r.text))
    let folded := (r1 :: r2 :: rest).foldl combineStep ([], 0, 0)
    { text := text
      segments := some (jsSortBy segStartLe folded.1)
      language := r1.language }

/-- `transcribeAudioChunks` from transcription-service.ts, with the network
call `transcribeAudio(chunk, apiKey, options)` abstracted as the `transcribe`
oracle; `Promise.all` over the per-chunk requests is all-or-nothing, which is
`List.mapM` in the `Except` monad. -/
def transcribeAudioChunks {α : Type} (transcribe : α → Except String TranscriptionResult)
    (chunks : List α) : Except String TranscriptionResult :=
  match chunks with
  | [] => .error "No audio chunks to transcribe"
  | [c] => transcribe c
  | c1 :: c2 :: cs =>
    ((c1 :: c2 :: cs).mapM transcribe).map combineTranscriptionResults

/-- End time of the final segment of a chunk result, `0` when the chunk has
no (or an empty) segment list. -/
def lastSegmentEnd (r : TranscriptionResult) : ℚ :=
  match r.segments with
  | some segs =>
    match segs.getLast? with
    | some s => s.endTime
    | none => 0
  | none => 0

/-- Spec-side description of chunk re-basing (claim C4): every chunk's
segments are shifted by a running offset that starts at `0` and grows, after
each chunk, by the end time of that chunk's final segment. -/
def specRebasedFrom (off : ℚ) : List TranscriptionResult → List TxSegment
  | [] => []
  | r :: rest =>
    (r.segments.getD []).map (shiftSegment off) ++
      specRebasedFrom (off + lastSegmentEnd r) rest

/-- Spec-side combined segment list before the final sort. -/
def specRebasedSegments (results : List TranscriptionResult) : List TxSegment :=
  specRebasedFrom 0 results

/-- Chunk A of the concrete example of claim C4: one segment `{start:0,end:30}`. -/
def chunkA : TranscriptionResult :=
  { text := "chunk one"
    segments := some [{ id := 0, start := 0, endTime := 30, text := "chunk one" }]
    language := some "en" }

/-- Chunk B of the concrete example of claim C4: one segment `{start:0,end:20}`. -/
def chunkB : TranscriptionResult :=
  { text := "chunk two"
    segments := some [{ id := 0, start := 0, endTime := 20, text := "chunk two" }]
    language := some "en" }

/-! ## Deepgram response normalizer (app/api/transcribe/deepgram route) -/

/-- One element of `alternatives.words`; every field a JavaScript response
object might omit is an Option. -/
structure DGWord where
  word : String
  punctuated_word : Option String
  start : Option ℚ
  endTime : Option ℚ
  confidence : Option ℚ
  speaker : Option Nat
deriving DecidableEq

/-- One normalized per-word segment produced by `processDeepgramResponse`. -/
structure DGSegment where
  id : Nat
  start : Option ℚ
  endTime : Option ℚ
  text : String
  speaker : Option Nat
  confidence : Option ℚ
deriving DecidableEq

/-- A Deepgram paragraph; the normalizer renames no field of it, so the same
shape serves as input and output. -/
structure DGParagraph where
  start : Option ℚ
  endTime : Option ℚ
  text : Option String
  speaker : Option Nat
  sentiment : Option String
deriving DecidableEq

/-- The `alternatives.paragraphs` wrapper object. -/
structure DGParagraphsWrap where
  paragraphs : Option (List DGParagraph)
deriving DecidableEq

/-- One element of `results.channels[].alternatives`. -/
structure DGAlternative where
  transcript : Option String
  confidence : Option ℚ
  words : Option (List DGWord)
  paragraphs : Option DGParagraphsWrap
deriving DecidableEq

/-- One element of `results.channels`; the `alternatives` field may be
absent, which is what claim C3 exercises. -/
structure DGChannel where
  alternatives : Option (List DGAlternative)
deriving DecidableEq

/-- One element of `results.topics.topics`. -/
structure DGTopicIn where
  topic : Option String
  confidence_score : Option ℚ
deriving DecidableEq

/-- The `results.topics` wrapper object. -/
structure DGTopicsWrap where
  topics : Option (List DGTopicIn)
deriving DecidableEq

/-- A normalized topic: `confidence_score` renamed to `confidence`. -/
structure DGTopicOut where
  topic : Option String
  confidence : Option ℚ
deriving DecidableEq

/-- One element of `results.sentiment.segments`. -/
structure DGSentSeg where
  start : Option ℚ
  endTime : Option ℚ
  sentiment : Option String
  sentiment_score : Option ℚ
deriving DecidableEq

/-- The `results.sentiment` wrapper object. -/
structure DGSentimentWrap where
  segments : Option (List DGSentSeg)
deriving DecidableEq

/-- `results.metadata`; only `detected_language` is ever read. -/
structure DGMetadata where
  detected_language : Option String
deriving DecidableEq

/-- The `results` object of a Deepgram response. -/
structure DGResults where
  channels : Option (List DGChannel)
  topics : Option DGTopicsWrap
  sentiment : Option DGSentimentWrap
  metadata : Option DGMetadata
deriving DecidableEq

/-- A whole Deepgram response body. -/
structure DGResponse where
  results : Option DGResults
deriving DecidableEq

/-- The `sentimentCounts` object of `calculateOverallSentiment`, in its
insertion order positive, negative, neutral. -/
structure DGSentimentCounts where
  positive : Nat
  negative : Nat
  neutral : Nat
deriving DecidableEq

/-- The record `calculateOverallSentiment` returns. -/
structure DGOverallSentiment where
  sentiment : String
  confidence : ℚ
  distribution : DGSentimentCounts
deriving DecidableEq

/-- One normalized sentiment segment (`sentiment_score` renamed to
`confidence`). -/
structure DGSentSegOut where
  start : Option ℚ
  endTime : Option ℚ
  sentiment : Option String
  confidence : Option ℚ
deriving DecidableEq

/-- The normalized `sentiment` field of the canonical result. -/
structure DGSentimentOut where
  overall : Option DGOverallSentiment
  segments : List DGSentSegOut
deriving DecidableEq

/-- The canonical result `processDeepgramResponse` produces.  The early
empty-input returns carry no `paragraphs`/`metadata` keys, hence the Options. -/
structure DGResult where
  text : String
  confidence : ℚ
  language : Option String
  speakers : List Nat
  segments : List DGSegment
  paragraphs : Option (List DGParagraph)
  topics : List DGTopicOut
  sentiment : Option DGSentimentOut
  metadata : Option DGMetadata
  raw : DGResponse
deriving DecidableEq

/-- One step of the `segments.forEach` tally of `calculateOverallSentiment`:
the accumulator is (positive, negative, neutral, totalConfidence); a segment
counts only when its `sentiment` is one of the three class keys, and then its
`sentiment_score || 0` is added to the confidence total. -/
def tallySentiment (acc : Nat × Nat × Nat × ℚ) (seg : DGSentSeg) : Nat × Nat × Nat × ℚ :=
  match seg.sentiment with
  | some s =>
    if s = "positive" then (acc.1 + 1, acc.2.1, acc.2.2.1, acc.2.2.2 + seg.sentiment_score.getD 0)
    else if s = "negative" then (acc.1, acc.2.1 + 1, acc.2.2.1, acc.2.2.2 + seg.sentiment_score.getD 0)
    else if s = "neutral" then (acc.1, acc.2.1, acc.2.2.1 + 1, acc.2.2.2 + seg.sentiment_score.getD 0)
    else acc
  | none => acc

/-- `calculateOverallSentiment` of the Deepgram route: tallies the three
classes, then scans `Object.entries(sentimentCounts)` pairwise with the
strict comparator `counts[a] > counts[b] ? a : b` (the entry values equal the
looked-up counts), and divides the accumulated score by the segment count. -/
def calculateOverallSentiment (segments : List DGSentSeg) : Option DGOverallSentiment :=
  match segments with
  | [] => none
  | _ :: _ =>
    let tallied := segments.foldl tallySentiment (0, 0, 0, (0 : ℚ))
    let top := [("negative", tallied.2.1), ("neutral", tallied.2.2.1)].foldl
      (fun a b => if a.2 > b.2 then a else b) ("positive", tallied.1)
    some
      { sentiment := top.1
        confidence := tallied.2.2.2 / segments.length
        distribution :=
          { positive := tallied.1, negative := tallied.2.1, neutral := tallied.2.2.1 } }

/-- The canonical all-empty result of the two early returns of
`processDeepgramResponse`. -/
def emptyDGResult (response : DGResponse) : DGResult :=
  { text := "", confidence := 0, language := none, speakers := [], segments := []
    paragraphs := none, topics := [], sentiment := none, metadata := none
    raw := response }

/-- `speakers.add(word.speaker)`: a JavaScript Set keeps first-encounter
order and ignores repeats. -/
def addSpeaker (acc : List Nat) (w : DGWord) : List Nat :=
  match w.speaker with
  | some s => if s ∈ acc then acc else acc ++ [s]
  | none => acc

/-- `processDeepgramResponse` of the Deepgram route.  `Except` models the
fact that `channel.alternatives[0]` throws a TypeError when the first
channel carries no `alternatives` field; every other access is guarded
(optional chaining, `||` fallbacks, explicit emptiness checks). -/
def processDeepgramResponse (response : DGResponse) : Except Unit DGResult :=
  match response.results with
  | none => .ok (emptyDGResult response)
  | some results =>
    match results.channels with
    | none => .ok (emptyDGResult response)
    | some [] => .ok (emptyDGResult response)
    | some (channel :: _) =>
      match channel.alternatives with
      | none => .error ()
      | some [] => .ok (emptyDGResult response)
      | some (alternatives :: _) =>
        let text := alternatives.transcript.getD ""
        let confidence := alternatives.confidence.getD 0
        let wordList := alternatives.words.getD []
        let speakerSet := wordList.foldl addSpeaker []
        let segments := wordList.enum.map (fun iw =>
          { id := iw.1, start := iw.2.start, endTime := iw.2.endTime
            text :=
              match iw.2.punctuated_word with
              | some p => if p = "" then iw.2.word else p
              | none => iw.2.word
            speaker := iw.2.speaker, confidence := iw.2.confidence : DGSegment })
        let paragraphs := ((alternatives.paragraphs.bind (fun w => w.paragraphs)).getD []).map
          (fun p =>
            { start := p.start, endTime := p.endTime, text := p.text
              speaker := p.speaker, sentiment := p.sentiment : DGParagraph })
        let topics := ((results.topics.bind (fun w => w.topics)).getD []).map
          (fun t => { topic := t.topic, confidence := t.confidence_score : DGTopicOut })
        let sentiment :=
          match results.sentiment.bind (fun w => w.segments) with
          | some (s :: ss) =>
            some
              { overall := calculateOverallSentiment (s :: ss)
                segments := (s :: ss).map (fun seg =>
                  { start := seg.start, endTime := seg.endTime
                    sentiment := seg.sentiment, confidence := seg.sentiment_score : DGSentSegOut }) }
          | _ => none
        let language :=
          match results.metadata.bind (fun m => m.detected_language) with
          | some l => if l = "" then none else some l
          | none => none
        .ok
          { text := text, confidence := confidence, language := language
            speakers := jsSortBy natStrLe speakerSet, segments := segments
            paragraphs := some paragraphs, topics := topics, sentiment := sentiment
            metadata := results.metadata, raw := response }

/-- Number of sentiment segments labelled positive. -/
def posSegCount (segs : List DGSentSeg) : Nat :=
  segs.countP (fun s => s.sentiment == some "positive")

/-- Number of sentiment segments labelled negative. -/
def negSegCount (segs : List DGSentSeg) : Nat :=
  segs.countP (fun s => s.sentiment == some "negative")

/-- Number of sentiment segments labelled neutral. -/
def neuSegCount (segs : List DGSentSeg) : Nat :=
  segs.countP (fun s => s.sentiment == some "neutral")

/-- Spec-side tie-break of the amended claim C1: the LAST class in the
enumeration order positive, negative, neutral whose count attains the
maximum. -/
def lastMaxClass (p n k : Nat) : String :=
  if k ≥ p ∧ k ≥ n then "neutral"
  else if n ≥ p then "negative"
  else "positive"

/-- The speakers field of a normalization outcome ([] when it threw). -/
def speakersOf (e : Except Unit DGResult) : List Nat :=
  match e with
  | .ok r => r.speakers
  | .error _ => []

/-- True exactly when the normalization did not throw. -/
def dgOk (e : Except Unit DGResult) : Bool :=
  match e with
  | .ok _ => true
  | .error _ => false

/-- A well-formed response whose first channel holds the given alternative. -/
def mkDGResponse (alt : DGAlternative) (altTail : List DGAlternative)
    (chTail : List DGChannel) (tp : Option DGTopicsWrap) (st : Option DGSentimentWrap)
    (md : Option DGMetadata) : DGResponse :=
  { results := some
      { channels := some ({ alternatives := some (alt :: altTail) } :: chTail)
        topics := tp, sentiment := st, metadata := md } }

/-- A word carrying only a speaker id. -/
def wordWithSpeaker (s : Nat) : DGWord :=
  { word := "w", punctuated_word := none, start := none, endTime := none
    confidence := none, speaker := some s }

/-- An alternative whose words carry the given speaker ids. -/
def altWithSpeakers (ss : List Nat) : DGAlternative :=
  { transcript := some "t", confidence := some 1
    words := some (ss.map wordWithSpeaker), paragraphs := none }

/-- A sentiment segment with the given label and score 1. -/
def sentSeg (s : String) : DGSentSeg :=
  { start := none, endTime := none, sentiment := some s, sentiment_score := some 1 }

/-- Claim C3's failing input: one channel whose `alternatives` field is
absent. -/
def c3BadResponse : DGResponse :=
  { results := some
      { channels := some [{ alternatives := none }]
        topics := none, sentiment := none, metadata := none } }

/-- A response with `results.channels = []` (for the C3 witness). -/
def c3EmptyChannelsResponse : DGResponse :=
  { results := some
      { channels := some [], topics := none, sentiment := none, metadata := none } }

/-! ## Gemini heuristics (app/api/transcribe/gemini route) -/

/-- The fixed positive keyword list of `analyzeSentiment`. -/
def positiveWords : List String :=
  ["good", "great", "excellent", "amazing", "wonderful", "fantastic", "love",
   "like", "happy", "pleased"]

/-- The fixed negative keyword list of `analyzeSentiment`. -/
def negativeWords : List String :=
  ["bad", "terrible", "awful", "hate", "dislike", "angry", "frustrated",
   "disappointed", "sad", "upset"]

/-- `text.toLowerCase().split(/\s+/)`; lowercasing is modelled on the ASCII
range by `Char.toLower`. -/
def jsWords (text : String) : List (List Char) :=
  splitWs (text.toList.map Char.toLower)

/-- The `distribution` object of the Gemini sentiment result; its `neutral`
entry is `words.length - positiveCount - negativeCount`, which JavaScript
lets go negative when a word matches both keyword lists. -/
structure GDistribution where
  positive : Nat
  negative : Nat
  neutral : Int
deriving DecidableEq

/-- The `overall` object of the Gemini sentiment result. -/
structure GOverall where
  sentiment : String
  confidence : ℚ
  distribution : GDistribution
deriving DecidableEq

/-- The Gemini sentiment result; `segments` is always the empty array. -/
structure GSentiment where
  overall : GOverall
  segments : List Unit
deriving DecidableEq

/-- One step of the `words.forEach` loop of `analyzeSentiment`: a word
containing some positive keyword as a substring bumps the first counter, one
containing some negative keyword bumps the second (both can fire). -/
def sentimentStep (acc : Nat × Nat) (w : List Char) : Nat × Nat :=
  ((if positiveWords.any (fun pw => hasSubstring pw.toList w) then acc.1 + 1 else acc.1),
   (if negativeWords.any (fun nw => hasSubstring nw.toList w) then acc.2 + 1 else acc.2))

/-- `analyzeSentiment` of the Gemini route. -/
def analyzeSentiment (text : String) : GSentiment :=
  let words := jsWords text
  let counts := words.foldl sentimentStep (0, 0)
  let overallSentiment :=
    if counts.1 > counts.2 then "positive"
    else if counts.2 > counts.1 then "negative"
    else "neutral"
  { overall :=
      { sentiment := overallSentiment
        confidence :=
          min (9/10 : ℚ) ((((counts.1 : Int) - (counts.2 : Int)).natAbs : ℚ) / words.length * 10)
        distribution :=
          { positive := counts.1, negative := counts.2
            neutral := (words.length : Int) - (counts.1 : Int) - (counts.2 : Int) } }
    segments := [] }

/-- Number of words of the text containing a positive keyword. -/
def posKeywordCount (text : String) : Nat :=
  (jsWords text).countP (fun w => positiveWords.any (fun pw => hasSubstring pw.toList w))

/-- Number of words of the text containing a negative keyword. -/
def negKeywordCount (text : String) : Nat :=
  (jsWords text).countP (fun w => negativeWords.any (fun nw => hasSubstring nw.toList w))

/-- The fixed English vocabulary of `detectLanguage`. -/
def englishWords : List String :=
  ["the", "and", "is", "in", "to", "of", "a", "that", "it", "with", "for",
   "as", "was", "on", "are"]

/-- The fixed Spanish vocabulary of `detectLanguage`. -/
def spanishWords : List String :=
  ["el", "la", "de", "que", "y", "en", "un", "es", "se", "no", "te", "lo",
   "le", "da", "su"]

/-- The fixed French vocabulary of `detectLanguage` (with its duplicated
"et", as in the source). -/
def frenchWords : List String :=
  ["le", "de", "et", "à", "un", "il", "être", "et", "en", "avoir", "que",
   "pour", "dans", "ce", "son"]

/-- One step of the `words.forEach` loop of `detectLanguage`: exact
membership of the word in each vocabulary bumps that language's counter. -/
def langStep (acc : Nat × Nat × Nat) (w : List Char) : Nat × Nat × Nat :=
  ((if englishWords.any (fun v => v.toList == w) then acc.1 + 1 else acc.1),
   (if spanishWords.any (fun v => v.toList == w) then acc.2.1 + 1 else acc.2.1),
   (if frenchWords.any (fun v => v.toList == w) then acc.2.2 + 1 else acc.2.2))

/-- `detectLanguage` of the Gemini route. -/
def detectLanguage (text : String) : String :=
  let words := jsWords text
  let counts := words.foldl langStep (0, 0, 0)
  if counts.1 > counts.2.1 ∧ counts.1 > counts.2.2 then "en"
  else if counts.2.1 > counts.1 ∧ counts.2.1 > counts.2.2 then "es"
  else if counts.2.2 > counts.1 ∧ counts.2.2 > counts.2.1 then "fr"
  else "en"

/-- Number of words of the text appearing in the English vocabulary. -/
def enWordCount (text : String) : Nat :=
  (jsWords text).countP (fun w => englishWords.any (fun v => v.toList == w))

/-- Number of words of the text appearing in the Spanish vocabulary. -/
def esWordCount (text : String) : Nat :=
  (jsWords text).countP (fun w => spanishWords.any (fun v => v.toList == w))

/-- Number of words of the text appearing in the French vocabulary. -/
def frWordCount (text : String) : Nat :=
  (jsWords text).countP (fun w => frenchWords.any (fun v => v.toList == w))

/-- Parses `(?:\s+[A-Z][a-z]+)*` greedily, returning the consumed repetition
units and the remaining input.  The fuel only bounds the recursion depth:
each unit consumes at least three characters, so fuel of the input length
never runs out. -/
def parseTopicUnits : Nat → List Char → List (List Char) × List Char
  | 0, l => ([], l)
  | fuel + 1, l =>
    let ws := l.takeWhile isJsSpace
    let r1 := l.dropWhile isJsSpace
    if ws.isEmpty then ([], l)
    else
      match r1 with
      | [] => ([], l)
      | c :: r2 =>
        if isAsciiUpper c then
          let low := r2.takeWhile isAsciiLower
          let r3 := r2.dropWhile isAsciiLower
          if low.isEmpty then ([], l)
          else
            let next := parseTopicUnits fuel r3
            ((ws ++ c :: low) :: next.1, next.2)
        else ([], l)

/-- Attempts the regex `[A-Z][a-z]+(?:\s+[A-Z][a-z]+)*\b` at the head of the
input (the leading `\b` is checked by the caller).  The `[a-z]+` runs being
maximal, the trailing `\b` can only fail when the next character is a word
character, and then backtracking drops the last repetition unit (whose
leading whitespace then satisfies `\b`), or fails if no unit is left. -/
def matchTopicAt (fuel : Nat) : List Char → Option (List Char × List Char)
  | [] => none
  | c :: r =>
    if isAsciiUpper c then
      let low := r.takeWhile isAsciiLower
      let r2 := r.dropWhile isAsciiLower
      if low.isEmpty then none
      else
        let parsed := parseTopicUnits fuel r2
        let boundary :=
          match parsed.2 with
          | [] => true
          | d :: _ => !(isWordChar d)
        if boundary then some (c :: low ++ parsed.1.flatten, parsed.2)
        else
          match parsed.1.getLast? with
          | none => none
          | some lastUnit => some (c :: low ++ parsed.1.dropLast.flatten, lastUnit ++ parsed.2)
    else none

/-- Global scan of `text.match(/\b[A-Z][a-z]+(?:\s+[A-Z][a-z]+)*\b/g)`:
leftmost match, then continue after it; `prev` is the character before the
current position for the `\b` test.  The fuel only bounds the recursion
depth: every step consumes at least one character. -/
def scanTopics : Nat → Option Char → List Char → List (List Char)
  | 0, _, _ => []
  | _ + 1, _, [] => []
  | fuel + 1, prev, c :: r =>
    let boundaryOk :=
      match prev with
      | none => true
      | some p => !(isWordChar p)
    if boundaryOk then
      match matchTopicAt (c :: r).length (c :: r) with
      | some m => m.1 :: scanTopics fuel m.1.getLast? m.2
      | none => scanTopics fuel (some c) r
    else scanTopics fuel (some c) r

/-- All matches of the capitalized word/phrase regex over the text
(`text.match(...) || []`). -/
def topicMatches (text : String) : List String :=
  (scanTopics (text.toList.length + 1) none text.toList).map (fun cs => String.mk cs)

/-- One extracted topic with its pseudo-confidence. -/
structure TopicEntry where
  topic : String
  confidence : ℚ
deriving DecidableEq

/-- The capitalized stop-list of `extractTopics`. -/
def commonWords : List String :=
  ["The", "This", "That", "And", "But", "Or", "So", "If", "When", "Where",
   "How", "What", "Who", "Why"]

/-- Comparator `(a, b) => b.confidence - a.confidence` (descending sort). -/
def topicConfLe (a b : TopicEntry) : Bool :=
  decide (b.confidence ≤ a.confidence)

/-- One step of the deduplicating `reduce` of `extractTopics`: a repeat
bumps the existing entry's confidence by 0.1, a new topic is pushed with
confidence `0.6 + random() * 0.3`; the Nat counts how many random draws were
consumed. -/
def topicStep (rnd : Nat → ℚ) (acc : List TopicEntry × Nat) (m : String) :
    List TopicEntry × Nat :=
  if acc.1.any (fun t => t.topic == m) then
    (acc.1.map (fun t => if t.topic == m then { t with confidence := t.confidence + 1/10 } else t),
     acc.2)
  else
    (acc.1 ++ [{ topic := m, confidence := 3/5 + rnd acc.2 * (3/10) }], acc.2 + 1)

/-- `extractTopics` of the Gemini route; `rnd` supplies the successive
`Math.random()` draws. -/
def extractTopics (rnd : Nat → ℚ) (text : String) : List TopicEntry :=
  let ms := topicMatches text
  let filtered := ms.filter (fun m => decide (2 < m.length) && !(commonWords.contains m))
  let reduced := filtered.foldl (topicStep rnd) ([], 0)
  (jsSortBy topicConfLe reduced.1).take 10

/-! ## TranscriptionOptions component (provider change handler) -/

/-- The `TranscriptionOptions` interface of the options component; the
provider union type is modelled as String because `handleProviderChange`
receives an arbitrary string and casts it. -/
structure TranscriptionOptions where
  provider : String
  model : String
  language : String
  diarize : Bool
  sentiment : Bool
  topics : Bool
  detectLanguage : Bool
  customTopicMode : String
  customTopics : List String
  includeTimestamps : Option Bool
  speakerLabels : Option Bool
  punctuation : Option Bool
deriving DecidableEq

/-- `handleProviderChange`: the switch assigns each known provider its fixed
default model and spreads the rest of the options unchanged; an unknown
provider updates only the provider field. -/
def handleProviderChange (options : TranscriptionOptions) (newProviderValue : String) :
    TranscriptionOptions :=
  if newProviderValue = "openai" then
    { options with provider := newProviderValue, model := "whisper-1" }
  else if newProviderValue = "gemini" then
    { options with provider := newProviderValue, model := "gemini-2.5-flash-preview-04-17" }
  else if newProviderValue = "deepgram" then
    { options with provider := newProviderValue, model := "nova-3" }
  else
    { options with provider := newProviderValue }

/-! ## Helper lemmas about the stable sort -/

theorem insertStable_perm {α : Type} (le : α → α → Bool) (x : α) (l : List α) :
    (insertStable le x l).Perm (x :: l) := by
  induction l with
  | nil => simp [insertStable]
  | cons y t ih =>
    simp only [insertStable]
    by_cases h : le x y
    · simp [h]
    · simp only [h, Bool.false_eq_true, if_false]
      exact (ih.cons y).trans (List.Perm.swap x y t)

theorem jsSortBy_perm {α : Type} (le : α → α → Bool) (l : List α) :
    (jsSortBy le l).Perm l := by
  induction l with
  | nil => simp [jsSortBy]
  | cons x t ih => exact (insertStable_perm le x (jsSortBy le t)).trans (ih.cons x)

theorem insertStable_sorted {α : Type} (le : α → α → Bool)
    (htot : ∀ a b, le a b = true ∨ le b a = true)
    (htrans : ∀ a b c, le a b = true → le b c = true → le a c = true)
    (x : α) (l : List α) (h : l.Pairwise (fun a b => le a b = true)) :
    (insertStable le x l).Pairwise (fun a b => le a b = true) := by
  induction l with
  | nil => simp [insertStable]
  | cons y t ih =>
    simp only [insertStable]
    obtain ⟨hy, ht⟩ := List.pairwise_cons.mp h
    by_cases hxy : le x y
    · rw [if_pos hxy]
      refine List.Pairwise.cons ?_ h
      intro z hz
      rcases List.mem_cons.mp hz with rfl | hzt
      · exact hxy
      · exact htrans x y z hxy (hy z hzt)
    · simp only [hxy, Bool.false_eq_true, if_false]
      refine List.Pairwise.cons ?_ (ih ht)
      intro z hz
      have hz' := (insertStable_perm le x t).mem_iff.mp hz
      rcases List.mem_cons.mp hz' with rfl | hzt
      · rcases htot z y with h' | h'
        · exact absurd h' hxy
        · exact h'
      · exact hy z hzt

theorem jsSortBy_sorted {α : Type} (le : α → α → Bool)
    (htot : ∀ a b, le a b = true ∨ le b a = true)
    (htrans : ∀ a b c, le a b = true → le b c = true → le a c = true)
    (l : List α) :
    (jsSortBy le l).Pairwise (fun a b => le a b = true) := by
  induction l with
  | nil => simp [jsSortBy]
  | cons x t ih => exact insertStable_sorted le htot htrans x _ ih

/-! ## Helper lemmas for claims C4 and C5 -/

theorem shiftSegment_zero (s : TxSegment) : shiftSegment 0 s = s := by
  cases s
  simp [shiftSegment]

theorem map_shiftSegment_zero (l : List TxSegment) : l.map (shiftSegment 0) = l := by
  rw [show shiftSegment 0 = id from funext shiftSegment_zero, List.map_id]

theorem combineStep_fold :
    ∀ (rs : List TranscriptionResult) (all : List TxSegment) (off : ℚ) (idx : Nat),
      idx ≠ 0 → (rs.foldl combineStep (all, off, idx)).1 = all ++ specRebasedFrom off rs := by
  intro rs
  induction rs with
  | nil =>
    intro all off idx _
    simp [specRebasedFrom]
  | cons r t ih =>
    intro all off idx h
    simp only [List.foldl_cons, specRebasedFrom]
    cases hseg : r.segments with
    | none =>
      rw [show combineStep (all, off, idx) r = (all, off, idx + 1) from by
        simp [combineStep, hseg]]
      rw [ih all off (idx + 1) (Nat.succ_ne_zero idx)]
      simp [hseg, lastSegmentEnd]
    | some segs =>
      rw [show combineStep (all, off, idx) r =
          (all ++ segs.map (shiftSegment off), off + lastSegmentEnd r, idx + 1) from by
        simp only [combineStep, hseg, h, if_neg, lastSegmentEnd]
        cases segs.getLast? <;> simp]
      rw [ih _ _ _ (Nat.succ_ne_zero idx)]
      simp [hseg, List.append_assoc]

theorem combine_fold_eq_specRebased (r1 r2 : TranscriptionResult)
    (rest : List TranscriptionResult) :
    ((r1 :: r2 :: rest).foldl combineStep ([], 0, 0)).1 =
      specRebasedSegments (r1 :: r2 :: rest) := by
  simp only [List.foldl_cons]
  rw [show combineStep ([], 0, 0) r1 = (r1.segments.getD [], lastSegmentEnd r1, 1) from by
    simp only [combineStep, lastSegmentEnd]
    cases r1.segments with
    | none => simp
    | some segs => cases segs.getLast? <;> simp]
  have hfold := combineStep_fold (r2 :: rest) (r1.segments.getD []) (lastSegmentEnd r1) 1
    one_ne_zero
  simp only [List.foldl_cons] at hfold
  rw [hfold]
  simp [specRebasedSegments, specRebasedFrom, map_shiftSegment_zero]

theorem segStartLe_total (a b : TxSegment) : segStartLe a b = true ∨ segStartLe b a = true := by
  unfold segStartLe
  rcases le_total a.start b.start with h | h
  · exact Or.inl (decide_eq_true h)
  · exact Or.inr (decide_eq_true h)

theorem segStartLe_trans (a b c : TxSegment) :
    segStartLe a b = true → segStartLe b c = true → segStartLe a c = true := by
  intro hab hbc
  exact decide_eq_true (le_trans (of_decide_eq_true hab) (of_decide_eq_true hbc))

/-! ## Theorems for claims C4, C5 and C10 -/

/-- C4 (confirmed): for two or more chunk results, the combined segment list
is exactly the spec-described one — every chunk's segments shifted by the
running offset accumulating the end time of each previous chunk's final
segment, concatenated, and stably sorted ascending by start time (the sorted
output is a permutation of the re-based concatenation and is pairwise
ordered by start); in particular chunk A `{start:0,end:30}` followed by
chunk B `{start:0,end:20}` re-bases B's segment to `{start:30,end:50}`. -/
theorem C4_theorem :
    ∀ (r1 r2 : TranscriptionResult) (rest : List TranscriptionResult),
      (combineTranscriptionResults (r1 :: r2 :: rest)).segments =
        some (jsSortBy segStartLe (specRebasedSegments (r1 :: r2 :: rest)))
      ∧ List.Pairwise (fun a b => a.start ≤ b.start)
          (jsSortBy segStartLe (specRebasedSegments (r1 :: r2 :: rest)))
      ∧ (jsSortBy segStartLe (specRebasedSegments (r1 :: r2 :: rest))).Perm
          (specRebasedSegments (r1 :: r2 :: rest))
      ∧ (combineTranscriptionResults [chunkA, chunkB]).segments =
          some [{ id := 0, start := 0, endTime := 30, text := "chunk one" },
                { id := 0, start := 30, endTime := 50, text := "chunk two" }] := by
  intro r1 r2 rest
  refine ⟨?_, ?_, ?_, ?_⟩
  · show some (jsSortBy segStartLe (((r1 :: r2 :: rest).foldl combineStep ([], 0, 0)).1)) = _
    rw [combine_fold_eq_specRebased]
  · exact (jsSortBy_sorted segStartLe segStartLe_total segStartLe_trans _).imp
      (fun h => of_decide_eq_true h)
  · exact jsSortBy_perm segStartLe _
  · simp only [combineTranscriptionResults, combineStep, chunkA, chunkB, List.foldl,
      jsSortBy, insertStable, segStartLe, shiftSegment, List.map]
    norm_num

/-- C5 (confirmed): a single-element list is returned unmodified, and for two
or more chunk results the combined text is the chunk texts joined with a
single space separator in chunk order. -/
theorem C5_theorem :
    (∀ r : TranscriptionResult, combineTranscriptionResults [r] = r) ∧
    (∀ (r1 r2 : TranscriptionResult) (rest : List TranscriptionResult),
      (combineTranscriptionResults (r1 :: r2 :: rest)).text =
        String.intercalate " " ((r1 :: r2 :: rest).map (fun r => r.text))) :=
  ⟨fun _ => rfl, fun _ _ _ => rfl⟩

/-- C10 (confirmed): with an empty chunk list, `transcribeAudioChunks` fails
with "No audio chunks to transcribe" for every possible transcription oracle
(so no request is ever issued), whereas `combineTranscriptionResults` on an
empty result list succeeds with `{ text := "" }` (no segments, no language). -/
theorem C10_theorem :
    (∀ (α : Type) (transcribe : α → Except String TranscriptionResult),
      transcribeAudioChunks transcribe [] = .error "No audio chunks to transcribe") ∧
    combineTranscriptionResults [] = { text := "", segments := none, language := none } :=
  ⟨fun _ _ => rfl, rfl⟩

/-- C9 (confirmed): for each of the three providers, changing provider
yields options whose provider is the new provider and whose model is that
provider's unique default, with every other field untouched (the record
updates below change nothing but provider and model). -/
theorem C9_theorem :
    ∀ opts : TranscriptionOptions,
      handleProviderChange opts "openai" =
        { opts with provider := "openai", model := "whisper-1" }
      ∧ handleProviderChange opts "gemini" =
        { opts with provider := "gemini", model := "gemini-2.5-flash-preview-04-17" }
      ∧ handleProviderChange opts "deepgram" =
        { opts with provider := "deepgram", model := "nova-3" } :=
  fun _ => ⟨rfl, rfl, rfl⟩

/-! ## Helper lemmas for claim C1 -/

theorem tallySentiment_counts :
    ∀ (segs : List DGSentSeg) (acc : Nat × Nat × Nat × ℚ),
      (segs.foldl tallySentiment acc).1 = acc.1 + posSegCount segs ∧
      (segs.foldl tallySentiment acc).2.1 = acc.2.1 + negSegCount segs ∧
      (segs.foldl tallySentiment acc).2.2.1 = acc.2.2.1 + neuSegCount segs := by
  intro segs
  induction segs with
  | nil =>
    intro acc
    simp [posSegCount, negSegCount, neuSegCount]
  | cons s t ih =>
    intro acc
    simp only [List.foldl_cons]
    obtain ⟨ih1, ih2, ih3⟩ := ih (tallySentiment acc s)
    rw [ih1, ih2, ih3]
    simp only [posSegCount, negSegCount, neuSegCount, List.countP_cons] at *
    unfold tallySentiment
    cases hs : s.sentiment with
    | none => simp [hs]
    | some str =>
      by_cases hp : str = "positive"
      · simp [hs, hp]
        omega
      · by_cases hn : str = "negative"
        · simp [hs, hp, hn]
          omega
        · by_cases hk : str = "neutral"
          · simp [hs, hp, hn, hk]
            omega
          · simp [hs, hp, hn, hk]

theorem pickEntry_eq (p n k : Nat) :
    ([("negative", n), ("neutral", k)].foldl
      (fun a b => if a.2 > b.2 then a else b) ("positive", p)).1 = lastMaxClass p n k := by
  simp only [List.foldl_cons, List.foldl_nil]
  unfold lastMaxClass
  split_ifs <;> first | rfl | omega

/-! ## Theorems for claim C1 -/

/-- C1 (counterexample): on the two-segment input `[positive, negative]`
(counts 1-1-0) `calculateOverallSentiment` returns "negative", not the
"positive" the claim states: ties move the strict pairwise comparator to its
second argument, so the LAST class attaining the maximum wins. -/
theorem C1_counterexample :
    (calculateOverallSentiment [sentSeg "positive", sentSeg "negative"]).map
        (fun o => o.sentiment) = some "negative"
      ∧ ((calculateOverallSentiment [sentSeg "positive", sentSeg "negative"]).map
          (fun o => o.sentiment) == some "positive") = false := by
  constructor
  · decide
  · decide

/-- C1 (amended, proved): for every nonempty sentiment-segment list,
`calculateOverallSentiment` returns the last class reaching the maximum
count in the fixed enumeration order positive, negative, neutral; in
particular ties between positive and negative (no neutral majority) resolve
to negative. -/
theorem C1_theorem :
    ∀ (s0 : DGSentSeg) (rest : List DGSentSeg),
      (calculateOverallSentiment (s0 :: rest)).map (fun o => o.sentiment) =
        some (lastMaxClass (posSegCount (s0 :: rest)) (negSegCount (s0 :: rest))
          (neuSegCount (s0 :: rest))) := by
  intro s0 rest
  obtain ⟨h1, h2, h3⟩ := tallySentiment_counts (s0 :: rest) (0, 0, 0, (0 : ℚ))
  simp only [calculateOverallSentiment, Option.map_some]
  rw [show ((s0 :: rest).foldl tallySentiment (0, 0, 0, (0 : ℚ))).2.2.1 =
    neuSegCount (s0 :: rest) from by rw [h3]; ring]
  rw [show ((s0 :: rest).foldl tallySentiment (0, 0, 0, (0 : ℚ))).2.1 =
    negSegCount (s0 :: rest) from by rw [h2]; ring]
  rw [show ((s0 :: rest).foldl tallySentiment (0, 0, 0, (0 : ℚ))).1 =
    posSegCount (s0 :: rest) from by rw [h1]; ring]
  rw [pickEntry_eq]
  rfl

/-! ## Helper lemmas for claim C2 -/

theorem charListLe_total : ∀ x y : List Char, charListLe x y = true ∨ charListLe y x = true := by
  intro x
  induction x with
  | nil =>
    intro y
    left
    rfl
  | cons a as ih =>
    intro y
    cases y with
    | nil =>
      right
      rfl
    | cons b bs =>
      simp only [charListLe]
      rcases Nat.lt_trichotomy a.toNat b.toNat with h | h | h
      · left
        simp [h]
      · have h1 : ¬ a.toNat < b.toNat := by omega
        have h2 : ¬ b.toNat < a.toNat := by omega
        simp only [h1, h2, if_false]
        exact ih bs
      · right
        simp [h]

theorem charListLe_trans :
    ∀ x y z : List Char, charListLe x y = true → charListLe y z = true →
      charListLe x z = true := by
  intro x
  induction x with
  | nil =>
    intro y z _ _
    rfl
  | cons a as ih =>
    intro y z hxy hyz
    cases y with
    | nil => simp [charListLe] at hxy
    | cons b bs =>
      cases z with
      | nil => simp [charListLe] at hyz
      | cons c cs =>
        simp only [charListLe] at hxy hyz ⊢
        by_cases hab : a.toNat < b.toNat
        · by_cases hbc : b.toNat < c.toNat
          · simp [show a.toNat < c.toNat from by omega]
          · by_cases hcb : c.toNat < b.toNat
            · simp [hbc, hcb] at hyz
            · simp [show a.toNat < c.toNat from by omega]
        · by_cases hba : b.toNat < a.toNat
          · simp [hab, hba] at hxy
          · by_cases hbc : b.toNat < c.toNat
            · simp [show a.toNat < c.toNat from by omega]
            · by_cases hcb : c.toNat < b.toNat
              · simp [hbc, hcb] at hyz
              · have hac : ¬ a.toNat < c.toNat := by omega
                have hca : ¬ c.toNat < a.toNat := by omega
                simp only [hab, hba, if_false] at hxy
                simp only [hbc, hcb, if_false] at hyz
                simp only [hac, hca, if_false]
                exact ih bs cs hxy hyz

theorem natStrLe_total (a b : Nat) : natStrLe a b = true ∨ natStrLe b a = true :=
  charListLe_total (Nat.repr a).toList (Nat.repr b).toList

theorem natStrLe_trans (a b c : Nat) :
    natStrLe a b = true → natStrLe b c = true → natStrLe a c = true :=
  charListLe_trans (Nat.repr a).toList (Nat.repr b).toList (Nat.repr c).toList

theorem addSpeaker_fold_mem :
    ∀ (ws : List DGWord) (acc : List Nat) (s : Nat),
      s ∈ ws.foldl addSpeaker acc ↔ s ∈ acc ∨ some s ∈ ws.map (fun w => w.speaker) := by
  intro ws
  induction ws with
  | nil =>
    intro acc s
    simp
  | cons w t ih =>
    intro acc s
    simp only [List.foldl_cons, List.map_cons, List.mem_cons]
    rw [ih]
    unfold addSpeaker
    cases hw : w.speaker with
    | none => simp
    | some v =>
      by_cases hv : v ∈ acc
      · simp only [hv, if_pos]
        constructor
        · intro h
          tauto
        · rintro (h | h | h)
          · tauto
          · left
            rw [Option.some.inj h]
            exact hv
          · tauto
      · simp only [hv, if_neg, Bool.false_eq_true, if_false, List.mem_append,
          List.mem_singleton]
        constructor
        · rintro ((h | h) | h)
          · tauto
          · subst h
            tauto
          · tauto
        · rintro (h | h | h)
          · tauto
          · left
            right
            exact Option.some.inj h
          · tauto

theorem addSpeaker_fold_nodup :
    ∀ (ws : List DGWord) (acc : List Nat), acc.Nodup → (ws.foldl addSpeaker acc).Nodup := by
  intro ws
  induction ws with
  | nil =>
    intro acc h
    exact h
  | cons w t ih =>
    intro acc h
    refine ih _ ?_
    unfold addSpeaker
    cases w.speaker with
    | none => exact h
    | some v =>
      by_cases hv : v ∈ acc
      · simp only [hv, if_pos]
        exact h
      · simp only [hv, if_neg, Bool.false_eq_true, if_false]
        simp [List.nodup_append, h, hv]

/-! ## Theorems for claim C2 -/

/-- C2 (counterexample): with observed speakers 2 and 10 the normalized
speakers list is `[10, 2]` — the JavaScript default sort compares decimal
strings, so the sequence is NOT ascending numeric order once an id has two
digits. -/
theorem C2_counterexample :
    speakersOf (processDeepgramResponse
        (mkDGResponse (altWithSpeakers [2, 10]) [] [] none none none)) = [10, 2]
      ∧ decide (List.Pairwise (fun a b => a ≤ b)
          (speakersOf (processDeepgramResponse
            (mkDGResponse (altWithSpeakers [2, 10]) [] [] none none none)))) = false := by
  constructor
  · decide
  · decide

/-- C2 (amended, proved): for every well-formed response reaching the word
loop, the normalized speakers list contains exactly the speaker ids observed
across the words, each exactly once, and is sorted ascending in the
decimal-string (code-unit lexicographic) order of the JavaScript default
comparator — which agrees with numeric order for single-digit ids, as in the
`[0,1,0] ↦ [0,1]` example, but not for ids of 10 or more. -/
theorem C2_theorem :
    ∀ (alt : DGAlternative) (altTail : List DGAlternative) (chTail : List DGChannel)
      (tp : Option DGTopicsWrap) (st : Option DGSentimentWrap) (md : Option DGMetadata),
      dgOk (processDeepgramResponse (mkDGResponse alt altTail chTail tp st md)) = true
      ∧ (∀ s : Nat,
          s ∈ speakersOf (processDeepgramResponse (mkDGResponse alt altTail chTail tp st md))
            ↔ some s ∈ (alt.words.getD []).map (fun w => w.speaker))
      ∧ (speakersOf (processDeepgramResponse (mkDGResponse alt altTail chTail tp st md))).Nodup
      ∧ List.Pairwise (fun a b => natStrLe a b = true)
          (speakersOf (processDeepgramResponse (mkDGResponse alt altTail chTail tp st md)))
      ∧ speakersOf (processDeepgramResponse
          (mkDGResponse (altWithSpeakers [0, 1, 0]) [] [] none none none)) = [0, 1] := by
  intro alt altTail chTail tp st md
  have hsp : speakersOf (processDeepgramResponse (mkDGResponse alt altTail chTail tp st md)) =
      jsSortBy natStrLe ((alt.words.getD []).foldl addSpeaker []) := rfl
  refine ⟨rfl, ?_, ?_, ?_, by decide⟩
  · intro s
    rw [hsp, (jsSortBy_perm natStrLe _).mem_iff, addSpeaker_fold_mem]
    simp
  · rw [hsp]
    exact (jsSortBy_perm natStrLe _).symm.nodup (addSpeaker_fold_nodup _ [] List.nodup_nil)
  · rw [hsp]
    exact jsSortBy_sorted natStrLe natStrLe_total natStrLe_trans _

/-! ## Theorems for claim C3 -/

/-- C3 (counterexample): a well-typed response whose first channel simply
lacks the `alternatives` field makes `processDeepgramResponse` throw
(`channel.alternatives[0]` on undefined), so the function does NOT return a
canonical result on every malformed-but-well-typed input. -/
theorem C3_counterexample :
    processDeepgramResponse c3BadResponse = Except.error ()
      ∧ dgOk (processDeepgramResponse c3BadResponse) = false :=
  ⟨rfl, rfl⟩

/-- C3 (amended, proved): missing `results`, missing or empty `channels`,
and a present-but-empty `alternatives` list on the first channel all return
the canonical all-empty result (text "", speakers [], topics [], segments
[], confidence 0, sentiment null, language null) without throwing; the
normalization throws exactly when the first channel's `alternatives` field
is absent, and never on the remaining well-typed inputs. -/
theorem C3_theorem :
    ∀ response : DGResponse,
      (response.results = none →
        processDeepgramResponse response = .ok (emptyDGResult response))
      ∧ (∀ res : DGResults, response.results = some res → res.channels = none →
          processDeepgramResponse response = .ok (emptyDGResult response))
      ∧ (∀ res : DGResults, response.results = some res → res.channels = some [] →
          processDeepgramResponse response = .ok (emptyDGResult response))
      ∧ (∀ (res : DGResults) (ch : DGChannel) (chTail : List DGChannel),
          response.results = some res → res.channels = some (ch :: chTail) →
          ch.alternatives = none →
          processDeepgramResponse response = .error ())
      ∧ (∀ (res : DGResults) (ch : DGChannel) (chTail : List DGChannel),
          response.results = some res → res.channels = some (ch :: chTail) →
          ch.alternatives = some [] →
          processDeepgramResponse response = .ok (emptyDGResult response))
      ∧ (∀ (res : DGResults) (ch : DGChannel) (chTail : List DGChannel)
          (a : DGAlternative) (altTail : List DGAlternative),
          response.results = some res → res.channels = some (ch :: chTail) →
          ch.alternatives = some (a :: altTail) →
          dgOk (processDeepgramResponse response) = true) := by
  intro response
  refine ⟨?_, ?_, ?_, ?_, ?_, ?_⟩
  · intro h
    simp [processDeepgramResponse, h]
  · intro res h1 h2
    simp [processDeepgramResponse, h1, h2]
  · intro res h1 h2
    simp [processDeepgramResponse, h1, h2]
  · intro res ch chTail h1 h2 h3
    simp [processDeepgramResponse, h1, h2, h3]
  · intro res ch chTail h1 h2 h3
    simp [processDeepgramResponse, h1, h2, h3]
  · intro res ch chTail a altTail h1 h2 h3
    simp [processDeepgramResponse, h1, h2, h3, dgOk]

/-- C3 witness: the amended theorem applied to the concrete response with
`results.channels = []` yields the canonical all-empty result. -/
theorem C3_witness :
    processDeepgramResponse c3EmptyChannelsResponse =
      .ok (emptyDGResult c3EmptyChannelsResponse) :=
  (C3_theorem c3EmptyChannelsResponse).2.2.1 _ rfl rfl

/-! ## Helper lemmas for claims C6 and C7 -/

theorem sentimentStep_fold :
    ∀ (ws : List (List Char)) (acc : Nat × Nat),
      ws.foldl sentimentStep acc =
        (acc.1 + ws.countP (fun w => positiveWords.any (fun pw => hasSubstring pw.toList w)),
         acc.2 + ws.countP (fun w => negativeWords.any (fun nw => hasSubstring nw.toList w))) := by
  intro ws
  induction ws with
  | nil =>
    intro acc
    simp
  | cons w t ih =>
    intro acc
    simp only [List.foldl_cons, ih, List.countP_cons, sentimentStep]
    cases h1 : positiveWords.any (fun pw => hasSubstring pw.toList w) <;>
      cases h2 : negativeWords.any (fun nw => hasSubstring nw.toList w) <;>
      simp <;> omega

theorem langStep_fold :
    ∀ (ws : List (List Char)) (acc : Nat × Nat × Nat),
      ws.foldl langStep acc =
        (acc.1 + ws.countP (fun w => englishWords.any (fun v => v.toList == w)),
         acc.2.1 + ws.countP (fun w => spanishWords.any (fun v => v.toList == w)),
         acc.2.2 + ws.countP (fun w => frenchWords.any (fun v => v.toList == w))) := by
  intro ws
  induction ws with
  | nil =>
    intro acc
    simp
  | cons w t ih =>
    intro acc
    simp only [List.foldl_cons, ih, List.countP_cons, langStep]
    cases h1 : englishWords.any (fun v => v.toList == w) <;>
      cases h2 : spanishWords.any (fun v => v.toList == w) <;>
      cases h3 : frenchWords.any (fun v => v.toList == w) <;>
      simp <;> omega

/-! ## Theorems for claims C6 and C7 -/

/-- C6 (confirmed): the Gemini sentiment heuristic labels a text positive
exactly when its positive-keyword count exceeds its negative-keyword count,
negative exactly in the opposite case, neutral otherwise, and its overall
confidence is `min(0.9, |posCount − negCount| / totalWordCount × 10)`. -/
theorem C6_theorem :
    ∀ text : String,
      (analyzeSentiment text).overall.sentiment =
        (if posKeywordCount text > negKeywordCount text then "positive"
         else if negKeywordCount text > posKeywordCount text then "negative"
         else "neutral")
      ∧ (analyzeSentiment text).overall.confidence =
          min (9/10 : ℚ)
            ((((posKeywordCount text : Int) - (negKeywordCount text : Int)).natAbs : ℚ) /
              (jsWords text).length * 10) := by
  intro text
  have h := sentimentStep_fold (jsWords text) (0, 0)
  constructor
  · show (if ((jsWords text).foldl sentimentStep (0, 0)).1 >
        ((jsWords text).foldl sentimentStep (0, 0)).2 then "positive"
      else if ((jsWords text).foldl sentimentStep (0, 0)).2 >
        ((jsWords text).foldl sentimentStep (0, 0)).1 then "negative" else "neutral") = _
    rw [h]
    simp [posKeywordCount, negKeywordCount]
  · show min (9/10 : ℚ)
        (((((jsWords text).foldl sentimentStep (0, 0)).1 -
            (((jsWords text).foldl sentimentStep (0, 0)).2 : Int)).natAbs : ℚ) /
          (jsWords text).length * 10) = _
    rw [h]
    simp [posKeywordCount, negKeywordCount]

/-- C7 (confirmed): `detectLanguage` returns the language with the strictly
highest vocabulary-occurrence count and falls back to "en" whenever no
language is strictly highest, including the all-zero case. -/
theorem C7_theorem :
    ∀ text : String,
      detectLanguage text =
        (if enWordCount text > esWordCount text ∧ enWordCount text > frWordCount text then "en"
         else if esWordCount text > enWordCount text ∧ esWordCount text > frWordCount text then "es"
         else if frWordCount text > enWordCount text ∧ frWordCount text > esWordCount text then "fr"
         else "en") := by
  intro text
  show (if ((jsWords text).foldl langStep (0, 0, 0)).1 > ((jsWords text).foldl langStep (0, 0, 0)).2.1
        ∧ ((jsWords text).foldl langStep (0, 0, 0)).1 > ((jsWords text).foldl langStep (0, 0, 0)).2.2
      then "en"
      else if ((jsWords text).foldl langStep (0, 0, 0)).2.1 > ((jsWords text).foldl langStep (0, 0, 0)).1
        ∧ ((jsWords text).foldl langStep (0, 0, 0)).2.1 > ((jsWords text).foldl langStep (0, 0, 0)).2.2
      then "es"
      else if ((jsWords text).foldl langStep (0, 0, 0)).2.2 > ((jsWords text).foldl langStep (0, 0, 0)).1
        ∧ ((jsWords text).foldl langStep (0, 0, 0)).2.2 > ((jsWords text).foldl langStep (0, 0, 0)).2.1
      then "fr"
      else "en") = _
  rw [langStep_fold]
  simp [enWordCount, esWordCount, frWordCount]

/-! ## Helper lemmas for claim C8 -/

theorem extractTopics_eq (rnd : Nat → ℚ) (text : String) :
    extractTopics rnd text =
      (jsSortBy topicConfLe
        (((topicMatches text).filter
            (fun m => decide (2 < m.length) && !(commonWords.contains m))).foldl
          (topicStep rnd) ([], 0)).1).take 10 := rfl

theorem topicUpdate_map_topic (m : String) (lst : List TopicEntry) :
    (lst.map (fun t =>
        if t.topic == m then { t with confidence := t.confidence + 1/10 } else t)).map
      (fun t => t.topic) = lst.map (fun t => t.topic) := by
  induction lst with
  | nil => rfl
  | cons u rest ih =>
    simp only [List.map_cons, ih]
    congr 1
    split <;> rfl

theorem topicStep_fold_pred (rnd : Nat → ℚ) (p : String → Bool) :
    ∀ (ms : List String) (acc : List TopicEntry × Nat),
      (∀ t ∈ acc.1, p t.topic = true) → (∀ m ∈ ms, p m = true) →
      ∀ t ∈ (ms.foldl (topicStep rnd) acc).1, p t.topic = true := by
  intro ms
  induction ms with
  | nil =>
    intro acc hacc _ t ht
    exact hacc t ht
  | cons m rest ih =>
    intro acc hacc hms
    simp only [List.foldl_cons]
    refine ih _ ?_ (fun x hx => hms x (List.mem_cons_of_mem _ hx))
    unfold topicStep
    by_cases hany : acc.1.any (fun t => t.topic == m) = true
    · rw [if_pos hany]
      intro t ht
      obtain ⟨u, hu, hut⟩ := List.mem_map.mp ht
      have htopic : t.topic = u.topic := by
        rw [← hut]
        split <;> rfl
      rw [htopic]
      exact hacc u hu
    · rw [if_neg hany]
      intro t ht
      rcases List.mem_append.mp ht with h | h
      · exact hacc t h
      · rw [List.mem_singleton.mp h]
        exact hms m (List.mem_cons_self m rest)

theorem topicStep_fold_nodup (rnd : Nat → ℚ) :
    ∀ (ms : List String) (acc : List TopicEntry × Nat),
      (acc.1.map (fun t => t.topic)).Nodup →
      ((ms.foldl (topicStep rnd) acc).1.map (fun t => t.topic)).Nodup := by
  intro ms
  induction ms with
  | nil =>
    intro acc h
    exact h
  | cons m rest ih =>
    intro acc h
    simp only [List.foldl_cons]
    refine ih _ ?_
    unfold topicStep
    by_cases hany : acc.1.any (fun t => t.topic == m) = true
    · rw [if_pos hany]
      show ((acc.1.map (fun t =>
          if t.topic == m then { t with confidence := t.confidence + 1/10 } else t)).map
        (fun t => t.topic)).Nodup
      rw [topicUpdate_map_topic]
      exact h
    · rw [if_neg hany]
      rw [List.map_append]
      rw [List.nodup_append]
      refine ⟨h, List.nodup_singleton _, ?_⟩
      intro x hx hx'
      simp only [List.map_cons, List.map_nil, List.mem_singleton] at hx'
      obtain ⟨u, hu, hux⟩ := List.mem_map.mp hx
      refine hany (List.any_eq_true.mpr ⟨u, hu, ?_⟩)
      rw [beq_iff_eq, hux, hx']

theorem topicsPipeline_props (rnd : Nat → ℚ) (ms : List String) :
    let filtered := ms.filter (fun m => decide (2 < m.length) && !(commonWords.contains m))
    let reduced := (filtered.foldl (topicStep rnd) ([], 0)).1
    let final := (jsSortBy topicConfLe reduced).take 10
    final.length ≤ 10 ∧
    final.all (fun t => decide (2 < t.topic.length) && !(commonWords.contains t.topic)) = true ∧
    (final.map (fun t => t.topic)).Nodup := by
  intro filtered reduced final
  have hfilter : ∀ m ∈ filtered, (decide (2 < m.length) && !(commonWords.contains m)) = true :=
    fun m hm => (List.mem_filter.mp hm).2
  have hreduced : ∀ t ∈ reduced, (decide (2 < t.topic.length) && !(commonWords.contains t.topic)) = true :=
    topicStep_fold_pred rnd (fun m => decide (2 < m.length) && !(commonWords.contains m))
      filtered ([], 0) (by intro t ht; simp at ht) hfilter
  refine ⟨?_, ?_, ?_⟩
  · rw [List.length_take]
    exact min_le_left _ _
  · apply List.all_eq_true.mpr
    intro t ht
    have ht1 : t ∈ jsSortBy topicConfLe reduced := (List.take_sublist 10 _).subset ht
    have ht2 : t ∈ reduced := (jsSortBy_perm topicConfLe reduced).mem_iff.mp ht1
    exact hreduced t ht2
  · rw [List.map_take]
    refine ((List.take_sublist 10 _).nodup ?_)
    refine ((jsSortBy_perm topicConfLe reduced).map (fun t => t.topic)).symm.nodup ?_
    exact topicStep_fold_nodup rnd filtered ([], 0) (by simp)

/-! ## Theorem for claim C8 -/

/-- C8 (confirmed): for every random stream and every text, the extracted
topics number at most 10, every topic string is longer than 2 characters and
is not a bare stop-list word, and each topic string occurs at most once; in
particular "The Quick Brown Fox" yields exactly the one capitalized phrase
and never the bare word "The". -/
theorem C8_theorem :
    ∀ (rnd : Nat → ℚ) (text : String),
      (extractTopics rnd text).length ≤ 10
      ∧ (extractTopics rnd text).all
          (fun t => decide (2 < t.topic.length) && !(commonWords.contains t.topic)) = true
      ∧ ((extractTopics rnd text).map (fun t => t.topic)).Nodup
      ∧ (extractTopics rnd "The Quick Brown Fox").map (fun t => t.topic) =
          ["The Quick Brown Fox"] := by
  intro rnd text
  obtain ⟨h1, h2, h3⟩ := topicsPipeline_props rnd (topicMatches text)
  refine ⟨?_, ?_, ?_, rfl⟩
  · rw [extractTopics_eq]
    exact h1
  · rw [extractTopics_eq]
    exact h2
  · rw [extractTopics_eq]
    exact h3
